import Mathlib

/-!
Verification of the NLP-Resume-Parser matching engine and dashboard glue.

The backend matching engine (`backend/matcher.py`, `backend/nlp_processor.py`,
`backend/job_analyzer.py`) is described by the repository README and design
documents but its Python sources are not part of this checkout; the engine
components below are therefore modelled from the specification text.  The
frontend dashboard (`frontend/app/dashboard/page.tsx`) is present and its
`handleMatch` logic is embedded directly from the TypeScript source.
-/

namespace ResumeParser

/-! ## Fuzzy matcher: edit distance and similarity (spec §4.3) -/

/-- Modelled from the spec: the backend `matcher.py` Levenshtein implementation
is missing from this checkout.  Standard unit-cost single-character
insertion/deletion/substitution edit distance (spec §4.3 and glossary),
instantiated from Mathlib's `levenshtein` with the all-unit cost structure
(`delete = insert = 1`, `substitute x y = if x = y then 0 else 1`). -/
def lev (a b : List Char) : ℕ :=
  levenshtein Levenshtein.defaultCost a b

/-- Lowercasing a token character by character; the spec's similarity is
"case-insensitive, computed on the already-lowercased strings" (§4.3). -/
def lower (s : List Char) : List Char :=
  s.map Char.toLower

/-- Modelled from the spec: the fuzzy matcher's normalized similarity
(`matcher.py` is missing from this checkout).  Per spec §4.3, strings are
lowercased first, an exact match short-circuits to similarity `1`, and
otherwise `similarity = 1 - lev(a, b) / max(|a|, |b|)`; the short-circuit also
covers the two-empty-strings edge case, which the spec defines as `1.0`. -/
def similarity (a b : List Char) : ℚ :=
  let a' := lower a
  let b' := lower b
  if a' = b' then 1
  else 1 - (lev a' b' : ℚ) / ((max a'.length b'.length : ℕ) : ℚ)

/-- Modelled from the spec: the same similarity without the exact-match
short-circuit, always running the edit-distance formula, with the explicit
both-empty guard the spec gives "to avoid division by zero" (§4.3).  Used to
state that the short-circuit is an optimization, not a behavior change. -/
def similarityFull (a b : List Char) : ℚ :=
  let a' := lower a
  let b' := lower b
  if a' = [] ∧ b' = [] then 1
  else 1 - (lev a' b' : ℚ) / ((max a'.length b'.length : ℕ) : ℚ)

/-- Modelled from the spec: the fuzzy matcher "selects the candidate mention
with the highest similarity" (§4.3).  Returns that mention together with its
similarity to the required skill, or `none` when there are no mentions; on
ties the earliest mention is kept. -/
def bestMention (r : List Char) : List (List Char) → Option (List Char × ℚ)
  | [] => none
  | m :: ms =>
    match bestMention r ms with
    | none => some (m, similarity r m)
    | some (m', s') =>
      if similarity r m < s' then some (m', s') else some (m, similarity r m)

/-- Modelled from the spec: `match_skill` (§4.3) — the required skill counts as
matched exactly when the best mention's similarity reaches the threshold
(boundary inclusive, "if similarity ≥ threshold"); otherwise it is missing
(`none`). -/
def match_skill (r : List Char) (mentions : List (List Char)) (threshold : ℚ) :
    Option (List Char × ℚ) :=
  match bestMention r mentions with
  | none => none
  | some (m, s) => if threshold ≤ s then some (m, s) else none

/-! ## Scorer (spec §4.4) -/

/-- Modelled from the spec: the sum of the weights of all required skills
(denominator of the score formula, §4.4). -/
def totalWeight (required : List (List Char × ℚ)) : ℚ :=
  (required.map Prod.snd).sum

/-- Modelled from the spec: the sum of the weights of the required skills that
were matched (numerator of the score formula, §4.4). -/
def matchedWeight (required : List (List Char × ℚ)) (matched : List (List Char)) : ℚ :=
  ((required.filter fun p => decide (p.1 ∈ matched)).map Prod.snd).sum

/-- Modelled from the spec: the scorer (§4.4), `score = 100 × (sum of weights
of matched skills) / (sum of weights of all required skills)`, with the
explicit zero-required-skills policy "the score is defined as 0" (§4.4, §7).
The spec's term-frequency weights have a floor of 1, so a zero total weight
cannot arise for a non-empty requirement list; Lean's division returns 0
there. -/
def score (required : List (List Char × ℚ)) (matched : List (List Char)) : ℚ :=
  if required = [] then 0
  else 100 * matchedWeight required matched / totalWeight required

/-! ## Per-resume match outcome (spec §3 MatchResult, §7) -/

/-- Modelled from the spec: a per-candidate match outcome (spec §3
`MatchResult`, mirrored by the frontend `MatchResult` interface in
`frontend/app/dashboard/page.tsx` lines 7–13), extended with the explicit
`no_requirements` indicator required by the spec's empty-requirement-set
policy (§7). -/
structure MatchOutcome where
  score : ℚ
  matched : List (List Char)
  missing : List (List Char)
  no_requirements : Bool
deriving DecidableEq

/-- Modelled from the spec: matching one resume's extracted mentions against
the required-skill list (keyword mode, each keyword weight 1 per §3
`JobRequirement`).  A required skill is matched when `match_skill` accepts it
and missing otherwise (§4.3); the overall score follows §4.4; an empty
requirement list yields score 0 with the explicit `no-requirements` indicator
(§7). -/
def matchResume (required mentions : List (List Char)) (threshold : ℚ) :
    MatchOutcome :=
  if required = [] then ⟨0, [], [], true⟩
  else
    let matched := required.filter fun r => (match_skill r mentions threshold).isSome
    let missing := required.filter fun r => !(match_skill r mentions threshold).isSome
    ⟨score (required.map fun r => (r, 1)) matched, matched, missing, false⟩

/-! ## Ranker (spec §4.5) -/

/-- Modelled from the spec: one entry of the ranked output — a candidate
identifier (filename) with its overall score (§4.5, §6). -/
structure MatchRecord where
  filename : List Char
  score : ℚ
deriving DecidableEq

/-- Modelled from the spec: the ranking order (§4.5) — descending by score,
ties broken by ascending candidate identifier (filename). -/
def rankLE (a b : MatchRecord) : Prop :=
  b.score < a.score ∨ (a.score = b.score ∧ a.filename ≤ b.filename)

instance : DecidableRel rankLE := fun a b => by
  unfold rankLE
  infer_instance

instance : IsTrans MatchRecord rankLE where
  trans a b c hab hbc := by
    rcases hab with h1 | ⟨h1, h1f⟩ <;> rcases hbc with h2 | ⟨h2, h2f⟩
    · exact Or.inl (h2.trans h1)
    · exact Or.inl (h2 ▸ h1)
    · exact Or.inl (h2.trans_eq h1.symm)
    · exact Or.inr ⟨h1.trans h2, h1f.trans h2f⟩

instance : IsTotal MatchRecord rankLE where
  total a b := by
    rcases lt_trichotomy a.score b.score with h | h | h
    · exact Or.inr (Or.inl h)
    · rcases le_total a.filename b.filename with hf | hf
      · exact Or.inl (Or.inr ⟨h, hf⟩)
      · exact Or.inr (Or.inr ⟨h.symm, hf⟩)
    · exact Or.inl (Or.inl h)

/-- Modelled from the spec: the ranker (§4.5) — sorts match results descending
by score with the filename tie-break, via insertion sort (a pure function on
the input sequence). -/
def rank (results : List MatchRecord) : List MatchRecord :=
  results.insertionSort rankLE

/-! ## Dashboard keyword splitting (frontend/app/dashboard/page.tsx 152–156) -/

/-- Embedded from `frontend/app/dashboard/page.tsx` line 153: JavaScript
`keywords.split(',')` — split on every comma, keeping empty pieces; splitting
the empty string yields one empty piece, exactly as in JavaScript. -/
def splitComma : List Char → List (List Char)
  | [] => [[]]
  | c :: rest =>
    if c = ',' then [] :: splitComma rest
    else
      match splitComma rest with
      | [] => [[c]]
      | p :: ps => (c :: p) :: ps

/-- Embedded from `frontend/app/dashboard/page.tsx` line 153: JavaScript
`String.prototype.trim` — remove leading and trailing whitespace (modelled
with `Char.isWhitespace`, the ASCII subset of JavaScript's whitespace
class). -/
def trim (s : List Char) : List Char :=
  (((s.dropWhile Char.isWhitespace).reverse).dropWhile Char.isWhitespace).reverse

/-- Embedded from `frontend/app/dashboard/page.tsx` line 153: the keyword list
the dashboard puts in the job input in keyword mode,
`keywords.split(',').map(k => k.trim())`. -/
def keywordsJobData (s : List Char) : List (List Char) :=
  (splitComma s).map trim

/-! ## Dashboard response handling (frontend/app/dashboard/page.tsx 178–189) -/

/-- JSON values as returned by `response.json()` in the dashboard. -/
inductive Json where
  | null : Json
  | bool : Bool → Json
  | num : ℚ → Json
  | str : List Char → Json
  | arr : List Json → Json
  | obj : List (List Char × Json) → Json

/-- Field lookup in a JSON object: the first binding of the key, or
`undefined` (modelled as `Json.null`, which is equally falsy and non-array)
when the key is absent. -/
def jsField (fields : List (List Char × Json)) (k : List Char) : Json :=
  match fields.find? fun p => decide (p.1 = k) with
  | some p => p.2
  | none => Json.null

/-- Embedded from the dashboard's JavaScript semantics: property access
`value.key`.  On `null` it throws a TypeError (modelled as `none`); on objects
it looks the key up; on any other value it gives `undefined`. -/
def jsGet : Json → List Char → Option Json
  | Json.null, _ => none
  | Json.obj fields, k => some (jsField fields k)
  | _, _ => some Json.null

/-- The field name `matches` as a character list. -/
def matchesKey : List Char :=
  ['m', 'a', 't', 'c', 'h', 'e', 's']

/-- The field name `results` as a character list. -/
def resultsKey : List Char :=
  ['r', 'e', 's', 'u', 'l', 't', 's']

/-- Embedded from `frontend/app/dashboard/page.tsx` lines 180–189: the
response-handling chain of `handleMatch`.  `some xs` means `setResults(xs)`
was called; `none` means the chain threw (property access on `null`) before
any `setResults` call, so the previous results state is left in place.  A
JavaScript array is always truthy, so `result.matches &&
Array.isArray(result.matches)` holds exactly when the field is an array, empty
or not; likewise for `result.results`. -/
def handleMatchResponse (result : Json) : Option (List Json) :=
  match result with
  | Json.arr xs => some xs
  | _ =>
    match jsGet result matchesKey with
    | none => none
    | some (Json.arr xs) => some xs
    | some _ =>
      match jsGet result resultsKey with
      | none => none
      | some (Json.arr ys) => some ys
      | some _ => some []

/-! ## Basic facts about the edit distance -/

theorem lev_nil_left : ∀ b : List Char, lev [] b = b.length := by
  intro b
  induction b with
  | nil => simp [lev]
  | cons y ys ih => simp [lev, Levenshtein.defaultCost] at ih ⊢; omega

theorem lev_nil_right : ∀ a : List Char, lev a [] = a.length := by
  intro a
  induction a with
  | nil => simp [lev]
  | cons x xs ih => simp [lev, Levenshtein.defaultCost] at ih ⊢; omega

theorem lev_cons_cons (x : Char) (xs : List Char) (y : Char) (ys : List Char) :
    lev (x :: xs) (y :: ys) =
      min (1 + lev xs (y :: ys))
        (min (1 + lev (x :: xs) ys)
          ((if x = y then 0 else 1) + lev xs ys)) := by
  simp [lev, Levenshtein.defaultCost]

theorem lev_self (a : List Char) : lev a a = 0 := by
  induction a with
  | nil => simp [lev]
  | cons x xs ih => rw [lev_cons_cons, if_pos rfl, ih]; omega

theorem lev_comm : ∀ a b : List Char, lev a b = lev b a := by
  intro a
  induction a with
  | nil =>
    intro b
    rw [lev_nil_left, lev_nil_right]
  | cons x xs ihx =>
    intro b
    induction b with
    | nil => rw [lev_nil_left, lev_nil_right]
    | cons y ys ihy =>
      rw [lev_cons_cons, lev_cons_cons, ihx (y :: ys), ihy, ihx ys]
      have hs : (if x = y then (0 : ℕ) else 1) = if y = x then 0 else 1 := by
        simp [eq_comm]
      rw [hs]
      omega

theorem lower_length (a : List Char) : (lower a).length = a.length :=
  List.length_map _ _

/-- C3: for all strings `a` and `b`, `similarity(a, b) = 1 - levenshtein(a, b)
/ max(len(a), len(b))` with the unit-cost edit distance computed on the
lowercased strings; the similarity of two empty strings is 1; `similarity
("python", "pyton") = 1 - 1/6`; and strings that agree after lowercasing have
similarity exactly 1. -/
theorem similarity_formula :
    (∀ a b : List Char,
        similarity a b =
          1 - (lev (lower a) (lower b) : ℚ) / ((max a.length b.length : ℕ) : ℚ)) ∧
      similarity [] [] = 1 ∧
      similarity (['p', 'y', 't', 'h', 'o', 'n']) (['p', 'y', 't', 'o', 'n']) = 1 - 1 / 6 ∧
      (∀ a b : List Char, lower a = lower b → similarity a b = 1) := by
  have hcase : ∀ a b : List Char, lower a = lower b → similarity a b = 1 := by
    intro a b h
    simp only [similarity]
    rw [if_pos h]
  refine ⟨?_, hcase [] [] rfl, ?_, hcase⟩
  · intro a b
    by_cases h : lower a = lower b
    · rw [hcase a b h, h, lev_self]
      norm_num
    · simp only [similarity]
      rw [if_neg h, lower_length, lower_length]
  · simp only [similarity]
    rw [if_neg (by decide),
      show lev (lower ['p', 'y', 't', 'h', 'o', 'n']) (lower ['p', 'y', 't', 'o', 'n']) = 1
        from by decide,
      show max (lower ['p', 'y', 't', 'h', 'o', 'n']).length
          (lower ['p', 'y', 't', 'o', 'n']).length = 6 from by decide]
    norm_num

/-- Witness for C3 at a concrete input: `"Python"` and `"python"` agree after
lowercasing, so their similarity is exactly 1. -/
theorem similarity_formula_witness :
    similarity (['P', 'y', 't', 'h', 'o', 'n']) (['p', 'y', 't', 'h', 'o', 'n']) = 1 :=
  similarity_formula.2.2.2 _ _ (by decide)

/-- C7: the exact-match short-circuit is behavior-preserving — on equal inputs
the short-circuited similarity (1) agrees with the full edit-distance formula;
in fact the short-circuited and full computations agree on all inputs; in
particular `similarity("python", "python") = 1`. -/
theorem similarity_shortcut_refines :
    (∀ a b : List Char, a = b → similarity a b = similarityFull a b ∧ similarity a b = 1) ∧
      (∀ a b : List Char, similarity a b = similarityFull a b) ∧
      similarity (['p', 'y', 't', 'h', 'o', 'n']) (['p', 'y', 't', 'h', 'o', 'n']) = 1 := by
  have hone : ∀ a b : List Char, lower a = lower b → similarity a b = 1 := by
    intro a b h
    simp only [similarity]
    rw [if_pos h]
  have hgen : ∀ a b : List Char, similarity a b = similarityFull a b := by
    intro a b
    by_cases h : lower a = lower b
    · rw [hone a b h]
      simp only [similarityFull]
      by_cases he : lower a = [] ∧ lower b = []
      · rw [if_pos he]
      · rw [if_neg he, h, lev_self]
        norm_num
    · have he : ¬(lower a = [] ∧ lower b = []) := fun hh => h (hh.1.trans hh.2.symm)
      simp only [similarity, similarityFull]
      rw [if_neg h, if_neg he]
  exact ⟨fun a b hab => ⟨hgen a b, hone a b (by rw [hab])⟩, hgen,
    hone _ _ rfl⟩

/-- Witness for C7 at a concrete input: applying the equal-strings clause to
`"python"` itself. -/
theorem similarity_shortcut_refines_witness :
    similarity (['p', 'y', 't', 'o', 'n']) (['p', 'y', 't', 'o', 'n']) =
        similarityFull (['p', 'y', 't', 'o', 'n']) (['p', 'y', 't', 'o', 'n']) ∧
      similarity (['p', 'y', 't', 'o', 'n']) (['p', 'y', 't', 'o', 'n']) = 1 :=
  similarity_shortcut_refines.1 _ _ rfl

/-- C8: similarity is symmetric, `similarity(a, b) = similarity(b, a)` for all
strings `a` and `b`. -/
theorem similarity_comm (a b : List Char) : similarity a b = similarity b a := by
  simp only [similarity]
  by_cases h : lower a = lower b
  · rw [if_pos h, if_pos h.symm]
  · rw [if_neg h, if_neg fun hh => h hh.symm, lev_comm, Nat.max_comm]

/-! ## Scorer facts -/

theorem matchedWeight_nonneg (required : List (List Char × ℚ))
    (matched : List (List Char)) (h : ∀ p ∈ required, 0 ≤ p.2) :
    0 ≤ matchedWeight required matched := by
  apply List.sum_nonneg
  intro x hx
  obtain ⟨p, hp, rfl⟩ := List.mem_map.mp hx
  exact h p (List.mem_filter.mp hp).1

theorem matchedWeight_le_totalWeight (required : List (List Char × ℚ))
    (matched : List (List Char)) (h : ∀ p ∈ required, 0 ≤ p.2) :
    matchedWeight required matched ≤ totalWeight required := by
  unfold matchedWeight totalWeight
  induction required with
  | nil => simp
  | cons a l ih =>
    have ha := h a (List.mem_cons_self a l)
    have ih' := ih fun p hp => h p (List.mem_cons_of_mem a hp)
    by_cases hp : decide (a.1 ∈ matched) = true <;>
      simp only [List.filter_cons, hp, if_pos, if_neg, List.map_cons, List.sum_cons,
        Bool.false_eq_true, ite_true, ite_false] <;> linarith

theorem matchedWeight_nil (required : List (List Char × ℚ)) :
    matchedWeight required [] = 0 := by
  unfold matchedWeight
  simp

theorem matchedWeight_all (required : List (List Char × ℚ))
    (matched : List (List Char)) (h : ∀ p ∈ required, p.1 ∈ matched) :
    matchedWeight required matched = totalWeight required := by
  unfold matchedWeight totalWeight
  rw [List.filter_eq_self.mpr fun p hp => by simpa using h p hp]

/-- C2: the score is `100 × (sum of weights of matched skills) / (sum of
weights of all required skills)`; with non-negative weights it lies in
`[0, 100]`; it is exactly 0 when nothing is matched; and it is exactly 100
when every required skill is matched and all weights are positive (the
requirement list being non-empty — for an empty list the §4.4/§7 policy pins
the score to 0 instead). -/
theorem score_spec (required : List (List Char × ℚ)) (matched : List (List Char)) :
    (required ≠ [] →
        score required matched =
          100 * matchedWeight required matched / totalWeight required) ∧
      ((∀ p ∈ required, 0 ≤ p.2) →
        0 ≤ score required matched ∧ score required matched ≤ 100) ∧
      score required [] = 0 ∧
      ((∀ p ∈ required, 0 < p.2) → (∀ p ∈ required, p.1 ∈ matched) → required ≠ [] →
        score required matched = 100) := by
  refine ⟨?_, ?_, ?_, ?_⟩
  · intro h
    rw [score, if_neg h]
  · intro h
    by_cases hr : required = []
    · rw [score, if_pos hr]
      norm_num
    · rw [score, if_neg hr]
      have h0 : 0 ≤ matchedWeight required matched := matchedWeight_nonneg _ _ h
      have hle : matchedWeight required matched ≤ totalWeight required :=
        matchedWeight_le_totalWeight _ _ h
      by_cases ht : totalWeight required = 0
      · rw [ht]
        norm_num
      · have htpos : 0 < totalWeight required := lt_of_le_of_ne (h0.trans hle) (Ne.symm ht)
        constructor
        · positivity
        · rw [mul_div_assoc]
          have : matchedWeight required matched / totalWeight required ≤ 1 :=
            (div_le_one htpos).mpr hle
          linarith
  · rw [score]
    by_cases hr : required = []
    · rw [if_pos hr]
    · rw [if_neg hr, matchedWeight_nil]
      norm_num
  · intro hpos hall hr
    rw [score, if_neg hr, matchedWeight_all _ _ hall]
    have htpos : 0 < totalWeight required := by
      apply List.sum_pos
      · intro x hx
        obtain ⟨p, hp, rfl⟩ := List.mem_map.mp hx
        exact hpos p hp
      · simpa using hr
    rw [mul_div_assoc, div_self (ne_of_gt htpos), mul_one]

/-- Witness for C2 at a concrete input: required skills `a` (weight 2) and `b`
(weight 3); with only `a` matched the score is 40 and lies in `[0, 100]`; with
nothing matched it is 0; with both matched it is 100. -/
theorem score_spec_witness :
    score [(['a'], 2), (['b'], 3)] [['a']] = 100 * 2 / 5 ∧
      (0 ≤ score [(['a'], 2), (['b'], 3)] [['a']] ∧
        score [(['a'], 2), (['b'], 3)] [['a']] ≤ 100) ∧
      score [(['a'], 2), (['b'], 3)] [] = 0 ∧
      score [(['a'], 2), (['b'], 3)] [['a'], ['b']] = 100 := by
  have h1 := (score_spec [(['a'], 2), (['b'], 3)] [['a']]).1 (by simp)
  have h2 := (score_spec [(['a'], 2), (['b'], 3)] [['a']]).2.1 (by
    intro p hp
    simp only [List.mem_cons, List.not_mem_nil, or_false] at hp
    rcases hp with rfl | rfl <;> norm_num)
  have h3 := (score_spec [(['a'], 2), (['b'], 3)] [['a']]).2.2.1
  have h4 := (score_spec [(['a'], 2), (['b'], 3)] [['a'], ['b']]).2.2.2 (by
      intro p hp
      simp only [List.mem_cons, List.not_mem_nil, or_false] at hp
      rcases hp with rfl | rfl <;> norm_num)
    (by
      intro p hp
      simp only [List.mem_cons, List.not_mem_nil, or_false] at hp
      rcases hp with rfl | rfl <;> simp)
    (by simp)
  refine ⟨?_, h2, h3, h4⟩
  rw [h1]
  have hm : matchedWeight [(['a'], 2), (['b'], 3)] [['a']] = 2 := by
    unfold matchedWeight
    simp
  have ht : totalWeight [(['a'], 2), (['b'], 3)] = 5 := by
    unfold totalWeight
    simp
    norm_num
  rw [hm, ht]

/-! ## Match-outcome invariants -/

/-- C1: for every required-skill set, mention list and threshold, the matched
and missing sets of the produced match outcome partition the required-skill
set: `matched ∪ missing = required` and `matched ∩ missing = ∅`. -/
theorem matchResult_partition (required mentions : List (List Char)) (t : ℚ) :
    ((matchResume required mentions t).matched).toFinset ∪
          ((matchResume required mentions t).missing).toFinset = required.toFinset ∧
      ((matchResume required mentions t).matched).toFinset ∩
          ((matchResume required mentions t).missing).toFinset = ∅ := by
  unfold matchResume
  by_cases h : required = []
  · subst h
    simp
  · rw [if_neg h]
    constructor
    · ext x
      simp only [Finset.mem_union, List.mem_toFinset, List.mem_filter]
      by_cases hx : (match_skill x mentions t).isSome <;> simp [hx]
    · ext x
      simp only [Finset.mem_inter, List.mem_toFinset, List.mem_filter,
        Finset.not_mem_empty, iff_false]
      by_cases hx : (match_skill x mentions t).isSome <;> simp [hx]

/-- C6: with an empty required-skill set the outcome's score is exactly 0 and
the explicit `no-requirements` indicator is set; for any non-empty
required-skill set the indicator is clear, so a genuine zero-overlap match
against real requirements is distinguishable. -/
theorem score_empty_requirements :
    (∀ (mentions : List (List Char)) (t : ℚ),
        (matchResume [] mentions t).score = 0 ∧
          (matchResume [] mentions t).no_requirements = true) ∧
      (∀ (required mentions : List (List Char)) (t : ℚ), required ≠ [] →
        (matchResume required mentions t).no_requirements = false) := by
  constructor
  · intro mentions t
    simp [matchResume]
  · intro required mentions t h
    simp [matchResume, if_neg h]

/-- Witness for C6 at a concrete input: no mentions and threshold `1/2`; the
empty requirement list scores 0 with the indicator set, while the singleton
requirement list `["a"]` has the indicator clear. -/
theorem score_empty_requirements_witness :
    ((matchResume [] [] (1 / 2)).score = 0 ∧
        (matchResume [] [] (1 / 2)).no_requirements = true) ∧
      (matchResume [['a']] [] (1 / 2)).no_requirements = false :=
  ⟨score_empty_requirements.1 [] (1 / 2),
    score_empty_requirements.2 [['a']] [] (1 / 2) (by simp)⟩

/-! ## Fuzzy-matcher threshold facts -/

theorem bestMention_eq_none_iff (r : List Char) (ms : List (List Char)) :
    bestMention r ms = none ↔ ms = [] := by
  cases ms with
  | nil => simp [bestMention]
  | cons m ms =>
    simp only [bestMention]
    cases h : bestMention r ms with
    | none => simp
    | some p =>
      obtain ⟨m', s'⟩ := p
      by_cases hlt : similarity r m < s' <;> simp [hlt]

theorem bestMention_spec (r : List Char) :
    ∀ (ms : List (List Char)) (m : List Char) (s : ℚ),
      bestMention r ms = some (m, s) →
        m ∈ ms ∧ s = similarity r m ∧ ∀ m' ∈ ms, similarity r m' ≤ s := by
  intro ms
  induction ms with
  | nil => intro m s h; simp [bestMention] at h
  | cons a as ih =>
    intro m s h
    simp only [bestMention] at h
    cases hb : bestMention r as with
    | none =>
      rw [hb] at h
      have has : as = [] := (bestMention_eq_none_iff r as).mp hb
      obtain ⟨rfl, rfl⟩ := by
        simpa using h
      subst has
      exact ⟨List.mem_singleton_self a, rfl, by simp⟩
    | some p =>
      obtain ⟨m', s'⟩ := p
      rw [hb] at h
      obtain ⟨hmem', hs', hmax'⟩ := ih m' s' hb
      dsimp only at h
      by_cases hlt : similarity r a < s'
      · rw [if_pos hlt] at h
        obtain ⟨rfl, rfl⟩ := by simpa using h
        refine ⟨List.mem_cons_of_mem a hmem', hs', ?_⟩
        intro x hx
        rcases List.mem_cons.mp hx with rfl | hx
        · exact le_of_lt hlt
        · exact hmax' x hx
      · rw [if_neg hlt] at h
        obtain ⟨rfl, rfl⟩ := by simpa using h
        refine ⟨List.mem_cons_self a as, rfl, ?_⟩
        intro x hx
        rcases List.mem_cons.mp hx with rfl | hx
        · exact le_refl _
        · exact (hmax' x hx).trans (not_lt.mp hlt)

/-- C4: the fuzzy matcher accepts a required skill exactly when some candidate
mention (equivalently, the best one) reaches the threshold, boundary
inclusive; at threshold `4/5 = 0.8` a pair with similarity exactly `4/5`
("abcde" vs "abcdx") is matched, while a pair with similarity `7/9`, just
below `4/5` ("abcdefghi" vs "abcdefgxy"), is missing. -/
theorem match_skill_threshold :
    (∀ (r : List Char) (mentions : List (List Char)) (t : ℚ),
        (match_skill r mentions t).isSome = true ↔
          ∃ m ∈ mentions, t ≤ similarity r m) ∧
      similarity (['a', 'b', 'c', 'd', 'e']) (['a', 'b', 'c', 'd', 'x']) = 4 / 5 ∧
      match_skill (['a', 'b', 'c', 'd', 'e']) [['a', 'b', 'c', 'd', 'x']] (4 / 5) =
          some (['a', 'b', 'c', 'd', 'x'], 4 / 5) ∧
      similarity (['a', 'b', 'c', 'd', 'e', 'f', 'g', 'h', 'i'])
          (['a', 'b', 'c', 'd', 'e', 'f', 'g', 'x', 'y']) = 7 / 9 ∧
      (7 / 9 : ℚ) < 4 / 5 ∧
      match_skill (['a', 'b', 'c', 'd', 'e', 'f', 'g', 'h', 'i'])
          [['a', 'b', 'c', 'd', 'e', 'f', 'g', 'x', 'y']] (4 / 5) = none := by
  have hs1 : similarity (['a', 'b', 'c', 'd', 'e']) (['a', 'b', 'c', 'd', 'x']) = 4 / 5 := by
    simp only [similarity]
    rw [if_neg (by decide),
      show lev (lower ['a', 'b', 'c', 'd', 'e']) (lower ['a', 'b', 'c', 'd', 'x']) = 1
        from by decide,
      show max (lower ['a', 'b', 'c', 'd', 'e']).length
          (lower ['a', 'b', 'c', 'd', 'x']).length = 5 from by decide]
    norm_num
  have hs2 : similarity (['a', 'b', 'c', 'd', 'e', 'f', 'g', 'h', 'i'])
      (['a', 'b', 'c', 'd', 'e', 'f', 'g', 'x', 'y']) = 7 / 9 := by
    simp only [similarity]
    rw [if_neg (by decide),
      show lev (lower ['a', 'b', 'c', 'd', 'e', 'f', 'g', 'h', 'i'])
          (lower ['a', 'b', 'c', 'd', 'e', 'f', 'g', 'x', 'y']) = 2 from by decide,
      show max (lower ['a', 'b', 'c', 'd', 'e', 'f', 'g', 'h', 'i']).length
          (lower ['a', 'b', 'c', 'd', 'e', 'f', 'g', 'x', 'y']).length = 9 from by decide]
    norm_num
  refine ⟨?_, hs1, ?_, hs2, by norm_num, ?_⟩
  · intro r mentions t
    constructor
    · intro h
      rw [match_skill] at h
      cases hb : bestMention r mentions with
      | none => rw [hb] at h; simp at h
      | some p =>
        obtain ⟨m, s⟩ := p
        rw [hb] at h
        obtain ⟨hmem, hs, _⟩ := bestMention_spec r mentions m s hb
        dsimp only at h
        by_cases ht : t ≤ s
        · exact ⟨m, hmem, hs ▸ ht⟩
        · rw [if_neg ht] at h; simp at h
    · rintro ⟨m0, hmem, ht⟩
      rw [match_skill]
      cases hb : bestMention r mentions with
      | none =>
        rw [bestMention_eq_none_iff] at hb
        subst hb
        simp at hmem
      | some p =>
        obtain ⟨m, s⟩ := p
        obtain ⟨_, _, hmax⟩ := bestMention_spec r mentions m s hb
        dsimp only
        rw [if_pos (ht.trans (hmax m0 hmem))]
        simp
  · rw [match_skill]
    rw [show bestMention (['a', 'b', 'c', 'd', 'e']) [['a', 'b', 'c', 'd', 'x']] =
        some (['a', 'b', 'c', 'd', 'x'],
          similarity (['a', 'b', 'c', 'd', 'e']) (['a', 'b', 'c', 'd', 'x'])) from rfl,
      hs1]
    dsimp only
    rw [if_pos (le_refl _)]
  · rw [match_skill]
    rw [show bestMention (['a', 'b', 'c', 'd', 'e', 'f', 'g', 'h', 'i'])
        [['a', 'b', 'c', 'd', 'e', 'f', 'g', 'x', 'y']] =
        some (['a', 'b', 'c', 'd', 'e', 'f', 'g', 'x', 'y'],
          similarity (['a', 'b', 'c', 'd', 'e', 'f', 'g', 'h', 'i'])
            (['a', 'b', 'c', 'd', 'e', 'f', 'g', 'x', 'y'])) from rfl,
      hs2]
    dsimp only
    rw [if_neg (by norm_num : ¬ (4 / 5 : ℚ) ≤ 7 / 9)]

/-- Witness for C4 at a concrete input: the skill "abcde" is matched against
the single mention "abcdx" at threshold `4/5` because that mention's
similarity is exactly `4/5`. -/
theorem match_skill_threshold_witness :
    (match_skill (['a', 'b', 'c', 'd', 'e']) [['a', 'b', 'c', 'd', 'x']] (4 / 5)).isSome =
        true :=
  (match_skill_threshold.1 _ _ _).mpr
    ⟨['a', 'b', 'c', 'd', 'x'], by simp, by rw [match_skill_threshold.2.1]⟩

/-! ## Ranker facts -/

/-- C5: ranking sorts the results with respect to the order "higher score
first, ties by ascending filename", and outputs a permutation of its input, so
the ordering is fully deterministic; in particular two candidates tied at
score 90 come out in ascending filename order regardless of input order. -/
theorem rank_spec :
    (∀ results : List MatchRecord, List.Sorted rankLE (rank results)) ∧
      (∀ results : List MatchRecord, (rank results).Perm results) ∧
      rank [⟨['b', '.', 'p', 'd', 'f'], 90⟩, ⟨['a', '.', 'p', 'd', 'f'], 90⟩] =
        [⟨['a', '.', 'p', 'd', 'f'], 90⟩, ⟨['b', '.', 'p', 'd', 'f'], 90⟩] := by
  refine ⟨fun results => List.sorted_insertionSort rankLE results,
    fun results => List.perm_insertionSort rankLE results, ?_⟩
  have hnot : ¬ rankLE ⟨['b', '.', 'p', 'd', 'f'], 90⟩ ⟨['a', '.', 'p', 'd', 'f'], 90⟩ := by
    rw [rankLE]
    push_neg
    exact ⟨by decide, fun _ => by decide⟩
  show List.insertionSort rankLE _ = _
  simp only [List.insertionSort, List.orderedInsert]
  rw [if_neg hnot]

/-! ## Keyword-splitting facts -/

theorem dropWhile_head?_false (p : Char → Bool) :
    ∀ (l : List Char) (c : Char), (l.dropWhile p).head? = some c → p c = false := by
  intro l
  induction l with
  | nil => intro c h; simp at h
  | cons x xs ih =>
    intro c h
    by_cases hx : p x = true
    · rw [show (x :: xs).dropWhile p = xs.dropWhile p by simp [List.dropWhile, hx]] at h
      exact ih c h
    · rw [show (x :: xs).dropWhile p = x :: xs by
          simp [List.dropWhile, Bool.eq_false_iff.mpr hx]] at h
      obtain rfl : x = c := by simpa using h
      simpa using hx

theorem dropWhile_getLast?_eq (p : Char → Bool) :
    ∀ (l : List Char) (c : Char), (l.dropWhile p).getLast? = some c →
      l.getLast? = some c := by
  intro l
  induction l with
  | nil => intro c h; simp at h
  | cons x xs ih =>
    intro c h
    by_cases hx : p x = true
    · rw [show (x :: xs).dropWhile p = xs.dropWhile p by simp [List.dropWhile, hx]] at h
      have h2 := ih c h
      cases xs with
      | nil => simp at h2
      | cons y ys => rw [List.getLast?_cons_cons]; exact h2
    · rw [show (x :: xs).dropWhile p = x :: xs by
          simp [List.dropWhile, Bool.eq_false_iff.mpr hx]] at h
      exact h

theorem trim_head?_not_ws (s : List Char) (c : Char) :
    (trim s).head? = some c → c.isWhitespace = false := by
  intro h
  rw [trim, List.head?_reverse] at h
  have h2 := dropWhile_getLast?_eq Char.isWhitespace _ c h
  rw [List.getLast?_reverse] at h2
  exact dropWhile_head?_false Char.isWhitespace _ c h2

theorem trim_getLast?_not_ws (s : List Char) (c : Char) :
    (trim s).getLast? = some c → c.isWhitespace = false := by
  intro h
  rw [trim, List.getLast?_reverse] at h
  exact dropWhile_head?_false Char.isWhitespace _ c h

theorem splitComma_ne_nil : ∀ s : List Char, splitComma s ≠ [] := by
  intro s
  cases s with
  | nil => simp [splitComma]
  | cons c rest =>
    rw [splitComma]
    by_cases hc : c = ','
    · simp [hc]
    · rw [if_neg hc]
      cases splitComma rest <;> simp

theorem splitComma_length (s : List Char) :
    (splitComma s).length = s.count ',' + 1 := by
  induction s with
  | nil => simp [splitComma]
  | cons c rest ih =>
    rw [splitComma]
    by_cases hc : c = ','
    · subst hc
      rw [if_pos rfl, List.length_cons, ih, List.count_cons]
      simp
    · rw [if_neg hc]
      cases hs : splitComma rest with
      | nil => exact absurd hs (splitComma_ne_nil rest)
      | cons p ps =>
        rw [hs] at ih
        simp only [List.length_cons] at ih ⊢
        rw [List.count_cons]
        simp [hc, ih]

/-- C9: in keyword mode the dashboard sends `{keywords: ks}` where `ks` is the
input split on commas with each piece trimmed; every entry is free of leading
and trailing whitespace, and empty pieces from leading, trailing or
consecutive commas are kept (the entry count is always the comma count plus
one), as on the concrete input `", a ,,"` which yields `["", "a", "", ""]`. -/
theorem keywords_split_spec :
    (∀ s : List Char, keywordsJobData s = (splitComma s).map trim) ∧
      (∀ s : List Char, ∀ k ∈ keywordsJobData s,
        (∀ c, k.head? = some c → c.isWhitespace = false) ∧
          (∀ c, k.getLast? = some c → c.isWhitespace = false)) ∧
      (∀ s : List Char, (keywordsJobData s).length = s.count ',' + 1) ∧
      keywordsJobData ([',', ' ', 'a', ' ', ',', ',']) = [[], ['a'], [], []] := by
  refine ⟨fun s => rfl, ?_, ?_, by decide⟩
  · intro s k hk
    obtain ⟨piece, _, rfl⟩ := List.mem_map.mp hk
    exact ⟨trim_head?_not_ws piece, trim_getLast?_not_ws piece⟩
  · intro s
    rw [keywordsJobData, List.length_map, splitComma_length]

/-- Witness for C9 at a concrete input: the middle keyword produced from
`", a ,,"` is `"a"`, whose first and last characters are not whitespace. -/
theorem keywords_split_spec_witness :
    (['a'] : List Char).head? = some 'a' ∧ 'a'.isWhitespace = false ∧
      (['a'] : List Char).getLast? = some 'a' := by
  refine ⟨rfl, ?_, by decide⟩
  exact (keywords_split_spec.2.1 ([',', ' ', 'a', ' ', ',', ',']) ['a'] (by decide)).1
    'a' rfl

/-! ## Dashboard response-handling facts -/

/-- C10 counterexample: on the JSON value `null` — a value `response.json()`
can return — the response handler does not set the results to the empty list;
the property access `result.matches` throws first (`none`), leaving the
previous results state in place. -/
theorem handleMatch_response_null : handleMatchResponse Json.null ≠ some [] := by
  rw [show handleMatchResponse Json.null = none from rfl]
  simp

/-- C10 (amended): an array response is displayed as is; the handler throws
(setting nothing) exactly on the `null` response; and on every other non-array
response it sets the results to the `matches` field if that is an array, else
to the `results` field if that is an array, else to the empty list — so every
value it ever stores is an array. -/
theorem handleMatch_response_spec :
    (∀ xs : List Json, handleMatchResponse (Json.arr xs) = some xs) ∧
      (∀ j : Json, handleMatchResponse j = none ↔ j = Json.null) ∧
      (∀ j : Json, j ≠ Json.null → (∀ xs, j ≠ Json.arr xs) →
        handleMatchResponse j =
          some (match jsGet j matchesKey, jsGet j resultsKey with
                | some (Json.arr xs), _ => xs
                | _, some (Json.arr ys) => ys
                | _, _ => [])) := by
  have hobj : ∀ fields : List (List Char × Json),
      handleMatchResponse (Json.obj fields) =
        (match jsField fields matchesKey with
         | Json.arr xs => some xs
         | _ =>
           match jsField fields resultsKey with
           | Json.arr ys => some ys
           | _ => some []) := by
    intro fields
    rw [show handleMatchResponse (Json.obj fields) =
        (match jsGet (Json.obj fields) matchesKey with
         | none => none
         | some (Json.arr xs) => some xs
         | some _ =>
           match jsGet (Json.obj fields) resultsKey with
           | none => none
           | some (Json.arr ys) => some ys
           | some _ => some []) from rfl,
      show jsGet (Json.obj fields) matchesKey = some (jsField fields matchesKey) from rfl,
      show jsGet (Json.obj fields) resultsKey = some (jsField fields resultsKey) from rfl]
    cases jsField fields matchesKey <;> cases jsField fields resultsKey <;> rfl
  refine ⟨fun xs => rfl, ?_, ?_⟩
  · intro j
    cases j with
    | null => simp [handleMatchResponse, jsGet]
    | bool b => rw [show handleMatchResponse (Json.bool b) = some [] from rfl]; simp
    | num q => rw [show handleMatchResponse (Json.num q) = some [] from rfl]; simp
    | str s => rw [show handleMatchResponse (Json.str s) = some [] from rfl]; simp
    | arr xs => rw [show handleMatchResponse (Json.arr xs) = some xs from rfl]; simp
    | obj fields =>
      rw [hobj fields]
      cases jsField fields matchesKey <;> cases jsField fields resultsKey <;> simp
  · intro j hnull harr
    cases j with
    | null => exact absurd rfl hnull
    | arr xs => exact absurd rfl (harr xs)
    | bool b => rfl
    | num q => rfl
    | str s => rfl
    | obj fields =>
      rw [hobj fields,
        show jsGet (Json.obj fields) matchesKey = some (jsField fields matchesKey) from rfl,
        show jsGet (Json.obj fields) resultsKey = some (jsField fields resultsKey) from rfl]
      cases jsField fields matchesKey <;> cases jsField fields resultsKey <;> rfl

/-- Witness for C10 at concrete inputs: a response object whose `matches`
field is the empty array is displayed as the empty list, and a bare string
response (no array anywhere) is also displayed as the empty list. -/
theorem handleMatch_response_spec_witness :
    handleMatchResponse (Json.obj [(matchesKey, Json.arr [])]) = some [] ∧
      handleMatchResponse (Json.str ['h', 'i']) = some [] := by
  constructor
  · rw [handleMatch_response_spec.2.2 (Json.obj [(matchesKey, Json.arr [])]) (by simp)
      (by simp)]
    rfl
  · rw [handleMatch_response_spec.2.2 (Json.str ['h', 'i']) (by simp) (by simp)]
    rfl

end ResumeParser
